import Mathlib

/-!
Verification of the MarketPulse reporting engine (`market_reporter.py`,
`old_data_remover.py`) against its natural-language specification.

Shallow embedding conventions:
* Python `float` prices and percentages are modelled as `ℚ` (exact arithmetic);
* `datetime` instants are modelled as `ℤ` (minutes);
* a Python exception (`ZeroDivisionError`, a SQLAlchemy store error) is
  modelled as `Except.error ()`;
* the SQLAlchemy session is modelled by an explicit list of rows plus an
  explicit fetch function that may fail;
* Python `dict` / `set` are modelled as association lists / lists with
  membership-guarded insertion.
-/

namespace MarketPulse

/-- A row of the `market_pairs` table (`database.MarketPairData`). -/
structure MarketPairData where
  market_pair : String
  exchange_name : String
  category : String
  market_url : String
  price : ℚ
  timestamp : ℤ
deriving DecidableEq, Repr

/-- One entry of the list built by `filter_significant_changes`
(the Python dict with keys `market_pair`, `price`, `change_percentage`,
`timestamp`, `market_url`). -/
structure SignificantChange where
  market_pair : String
  price : ℚ
  change_percentage : ℚ
  timestamp : ℤ
  market_url : String
deriving DecidableEq, Repr

/-- `market_pairs[mp]` lookup in the Python dict. -/
def assocFind (mp : String) : List (String × MarketPairData) → Option MarketPairData
  | [] => none
  | (k, v) :: rest => if k = mp then some v else assocFind mp rest

/-- `del market_pairs[mp]` on the Python dict. -/
def assocErase (mp : String) : List (String × MarketPairData) → List (String × MarketPairData)
  | [] => []
  | (k, v) :: rest => if k = mp then assocErase mp rest else (k, v) :: assocErase mp rest

/-- `processed_market_pairs.add(mp)` on the Python set. -/
def setInsert (s : List String) (x : String) : List String :=
  if x ∈ s then s else x :: s

/-- The dict appended to `significant_changes` on a qualifying crossing
(`market_reporter.py` lines 60–66). -/
def mkSignificantChange (data : MarketPairData) (price_change : ℚ) : SignificantChange :=
  { market_pair := data.market_pair ++ " (" ++ data.exchange_name ++ ")"
    price := data.price
    change_percentage := price_change
    timestamp := data.timestamp
    market_url := data.market_url }

/-- Loop state of the `for data in market_data` loop of
`filter_significant_changes`: the output list, the baseline dict and the
shared processed set. -/
structure FilterState where
  significant_changes : List SignificantChange
  market_pairs : List (String × MarketPairData)
  processed : List String
deriving DecidableEq, Repr

/-- One iteration of the loop body of `filter_significant_changes`
(`market_reporter.py` lines 44–69).  A zero baseline price makes the Python
division `(data.price - initial_price) / initial_price` raise
`ZeroDivisionError`, modelled as `Except.error ()`. -/
def filterStep (threshold : ℚ) (st : FilterState) (data : MarketPairData) :
    Except Unit FilterState :=
  let market_pair := data.market_pair
  if market_pair ∈ st.processed then
    .ok st
  else
    match assocFind market_pair st.market_pairs with
    | none => .ok { st with market_pairs := (market_pair, data) :: st.market_pairs }
    | some first =>
      let initial_price := first.price
      if initial_price = 0 then
        .error ()
      else
        let price_change := (data.price - initial_price) / initial_price * 100
        if |price_change| ≥ threshold then
          .ok { significant_changes :=
                  st.significant_changes ++ [mkSignificantChange data price_change]
                market_pairs := assocErase market_pair st.market_pairs
                processed := setInsert st.processed market_pair }
        else
          .ok st

/-- The full `for data in market_data` loop. -/
def filterLoop (threshold : ℚ) : List MarketPairData → FilterState → Except Unit FilterState
  | [], st => .ok st
  | data :: rest, st =>
    match filterStep threshold st data with
    | .error e => .error e
    | .ok st' => filterLoop threshold rest st'

/-- The final `significant_changes.sort(key=lambda x: x['change_percentage'])`
(ascending). -/
def sortByChange (changes : List SignificantChange) : List SignificantChange :=
  List.insertionSort (fun a b => a.change_percentage ≤ b.change_percentage) changes

/-- `filter_significant_changes(market_data, threshold, processed_market_pairs)`
(`market_reporter.py` lines 35–74).  Returns the sorted significant changes
together with the mutated processed set, or an error when the Python code
would raise (zero baseline). -/
def filter_significant_changes (market_data : List MarketPairData) (threshold : ℚ)
    (processed_market_pairs : List String) :
    Except Unit (List SignificantChange × List String) :=
  match filterLoop threshold market_data
      ⟨[], [], processed_market_pairs⟩ with
  | .error e => .error e
  | .ok st => .ok (sortByChange st.significant_changes, st.processed)

/-- The `intervals` dict of `generate_reports` (`market_reporter.py`
lines 82–87), in Python insertion order, with instants in minutes:
each value is `current_time - lookback`. -/
def intervals (current_time : ℤ) : List (String × ℤ) :=
  [("10 min", current_time - 10), ("30 min", current_time - 30),
   ("60 min", current_time - 60), ("3 hours", current_time - 180)]

/-- `sorted(intervals.items(), key=lambda x: x[1], reverse=True)`
(`market_reporter.py` line 99): the windows ordered by start descending. -/
def sortedIntervals (current_time : ℤ) : List (String × ℤ) :=
  List.insertionSort (fun a b => b.2 ≤ a.2) (intervals current_time)

/-- The store fetch `MarketPairRepository.get_market_pairs_in_timeframe`
together with the SQLAlchemy session it runs on: a function from the query
range to either the fetched rows or a store error
(`market_reporter.py` lines 25–32; the query itself can raise). -/
def FetchFun : Type := ℤ → ℤ → Except Unit (List MarketPairData)

/-- Body of the `for interval_name, start_time in sorted(...)` loop of
`generate_reports` (`market_reporter.py` lines 99–111): fetch the range,
filter the rows to this exchange, run the change detector with the shared
processed set, and record the report when non-empty. -/
def processInterval (threshold : ℚ) (fetch : FetchFun) (current_time : ℤ)
    (exchange : String)
    (acc : List String × List (String × List SignificantChange))
    (iv : String × ℤ) :
    Except Unit (List String × List (String × List SignificantChange)) :=
  match fetch iv.2 current_time with
  | .error e => .error e
  | .ok market_data =>
    let filtered_data := market_data.filter (fun d => d.exchange_name == exchange)
    match filter_significant_changes filtered_data threshold acc.1 with
    | .error e => .error e
    | .ok (report, processed') =>
      if report.isEmpty then .ok (processed', acc.2)
      else .ok (processed', acc.2 ++ [(iv.1, report)])

/-- The window loop of `generate_reports` for one exchange. -/
def intervalLoop (threshold : ℚ) (fetch : FetchFun) (current_time : ℤ)
    (exchange : String) :
    List (String × ℤ) → List String × List (String × List SignificantChange) →
    Except Unit (List String × List (String × List SignificantChange))
  | [], acc => .ok acc
  | iv :: rest, acc =>
    match processInterval threshold fetch current_time exchange acc iv with
    | .error e => .error e
    | .ok acc' => intervalLoop threshold fetch current_time exchange rest acc'

/-- The `for exchange in exchanges` loop of `generate_reports`
(`market_reporter.py` lines 97–114): each exchange runs the window loop on
the single shared `processed_market_pairs` set, and exchanges with no
qualifying window are omitted. -/
def exchangeLoop (threshold : ℚ) (fetch : FetchFun) (current_time : ℤ) :
    List String →
    List String × List (String × List (String × List SignificantChange)) →
    Except Unit (List String × List (String × List (String × List SignificantChange)))
  | [], acc => .ok acc
  | exchange :: rest, acc =>
    match intervalLoop threshold fetch current_time exchange
        (sortedIntervals current_time) (acc.1, []) with
    | .error e => .error e
    | .ok (processed', exchange_reports) =>
      if exchange_reports.isEmpty then
        exchangeLoop threshold fetch current_time rest (processed', acc.2)
      else
        exchangeLoop threshold fetch current_time rest
          (processed', acc.2 ++ [(exchange, exchange_reports)])

/-- `generate_reports(session, threshold)` (`market_reporter.py`
lines 77–116).  `exchanges` models the distinct exchange names the session
query returns (a Python set, so its order is an input here); `fetch` models
the repository fetch on the session; `current_time` is `datetime.now`.
The `processed_market_pairs` set is created once, empty, for the whole call. -/
def generate_reports (exchanges : List String) (threshold : ℚ) (fetch : FetchFun)
    (current_time : ℤ) :
    Except Unit (List (String × List (String × List SignificantChange))) :=
  match exchangeLoop threshold fetch current_time exchanges ([], []) with
  | .error e => .error e
  | .ok (_, reports) => .ok reports

/-! ### Message formatter (`format_telegram_messages`) -/

/-- `max_line_length = 30` (`market_reporter.py` line 125). -/
def max_line_length : ℕ := 30

/-- Renders a rational with two decimal places (models the Python
`f"{x:.2f}"` applied to the change percentage; rounding of the model is
half-away-from-zero on the exact rational). -/
def formatPercent (q : ℚ) : String :=
  let cents : ℤ := if q < 0 then -((-q * 100).num / (-q * 100).den) else (q * 100).num / (q * 100).den
  let rounded : ℤ :=
    if (q * 100) - (cents : ℚ) ≥ 1/2 then cents + 1
    else if (cents : ℚ) - (q * 100) ≥ 1/2 then cents - 1
    else cents
  let sign := if rounded < 0 then "-" else ""
  let mag := rounded.natAbs
  sign ++ toString (mag / 100) ++ "." ++
    (if mag % 100 < 10 then "0" else "") ++ toString (mag % 100)

/-- `sorted(changes, key=lambda x: x['change_percentage'])`
(`market_reporter.py` line 133): the entries of one window's block in the
order they are rendered. -/
def sorted_changes (changes : List SignificantChange) : List SignificantChange :=
  List.insertionSort (fun a b => a.change_percentage ≤ b.change_percentage) changes

/-- One rendered line of a window block (`market_reporter.py`
lines 136–149): hyperlink on the bare pair symbol, space padding up to
`max_line_length`, then the percentage. -/
def formatLine (change : SignificantChange) : String :=
  let market_pair := (change.market_pair.splitOn " ").headD ""
  let change_percentage := formatPercent change.change_percentage ++ "%"
  let total_length := market_pair.length + change_percentage.length
  let spaces :=
    if max_line_length - (total_length : ℤ) > 0 then
      String.mk (List.replicate (max_line_length - total_length) ' ')
    else ""
  "<a href=" ++ "'" ++ change.market_url ++ "'" ++ ">" ++ market_pair ++ "</a>" ++
    spaces ++ change_percentage ++ "\n"

/-- One window block of the message: divider header then the sorted lines. -/
def formatBlock (interval : String) (changes : List SignificantChange) : String :=
  "\n" ++ interval ++ ":\n" ++ String.mk (List.replicate max_line_length '-') ++ "\n" ++
    String.join ((sorted_changes changes).map formatLine)

/-- `format_telegram_messages(reports)` (`market_reporter.py`
lines 119–153): one message per exchange. -/
def format_telegram_messages
    (reports : List (String × List (String × List SignificantChange))) :
    List (String × String) :=
  reports.map (fun er =>
    (er.1, "Біржа: " ++ er.1 ++ "\n" ++
      String.join (er.2.map (fun ic => formatBlock ic.1 ic.2))))

/-! ### Pruning (`old_data_remover.delete_old_records`) -/

/-- `delete_old_records(session, hours)` (`old_data_remover.py`
lines 17–39), with the session modelled as the list of stored rows and the
possibility of the bulk `DELETE` raising modelled by the `fail` flag.
Returns the session's rows after the call together with the outcome:
on success the rows with `timestamp < threshold_date` are deleted and the
deleted `rowcount` is returned; on failure the transaction is rolled back
(the rows are unchanged) and the error is re-raised. -/
def delete_old_records (fail : Bool) (store : List MarketPairData)
    (now : ℤ) (hours : ℤ) : List MarketPairData × Except Unit ℕ :=
  let threshold_date := now - hours * 60
  if fail then
    (store, .error ())
  else
    let remaining := store.filter (fun d => !(d.timestamp < threshold_date))
    let deleted := store.filter (fun d => d.timestamp < threshold_date)
    (remaining, .ok deleted.length)

/-! ### Basic lemmas about the container models -/

lemma mem_setInsert {s : List String} {x y : String} :
    x ∈ setInsert s y ↔ x = y ∨ x ∈ s := by
  unfold setInsert
  split
  · constructor
    · exact fun h => Or.inr h
    · rintro (rfl | h) <;> assumption
  · simp [List.mem_cons]

lemma mem_setInsert_self {s : List String} {y : String} : y ∈ setInsert s y :=
  mem_setInsert.mpr (Or.inl rfl)

lemma mem_setInsert_of_mem {s : List String} {x y : String} (h : x ∈ s) :
    x ∈ setInsert s y :=
  mem_setInsert.mpr (Or.inr h)

lemma mem_sortByChange {l : List SignificantChange} {sc : SignificantChange} :
    sc ∈ sortByChange l ↔ sc ∈ l :=
  (List.perm_insertionSort _ l).mem_iff

/-- A string-append suffix is cancellable: used to recover the bare pair
name from the `"PAIR (EXCHANGE)"` display string. -/
lemma string_append_suffix_inj {a b s : String} (h : a ++ s = b ++ s) : a = b := by
  have hd : a.data ++ s.data = b.data ++ s.data := by
    have := congrArg String.data h
    simpa [String.data_append] using this
  exact String.ext (List.append_cancel_right hd)

/-- The display string `name ++ " (" ++ exchange ++ ")"` determines the bare
name once the exchange is fixed. -/
lemma pair_display_inj {a b e : String}
    (h : a ++ " (" ++ e ++ ")" = b ++ " (" ++ e ++ ")") : a = b :=
  string_append_suffix_inj (string_append_suffix_inj (string_append_suffix_inj h))

/-! ### Lemmas about the change-detector loop -/

/-- Case analysis for one successful loop iteration: either nothing is
emitted and the processed set is unchanged, or the pair was unprocessed and
exactly one change for it is appended while the bare pair name joins the
processed set. -/
lemma filterStep_cases {th : ℚ} {st : FilterState} {d : MarketPairData}
    {st' : FilterState} (h : filterStep th st d = .ok st') :
    (st'.significant_changes = st.significant_changes ∧ st'.processed = st.processed) ∨
    (d.market_pair ∉ st.processed ∧
      ∃ ch, st'.significant_changes = st.significant_changes ++ [mkSignificantChange d ch] ∧
        st'.processed = setInsert st.processed d.market_pair) := by
  simp only [filterStep] at h
  split at h
  · cases h
    exact Or.inl ⟨rfl, rfl⟩
  · rename_i hmem
    split at h
    · cases h
      exact Or.inl ⟨rfl, rfl⟩
    · split at h
      · simp at h
      · split at h
        · cases h
          exact Or.inr ⟨hmem, _, rfl, rfl⟩
        · cases h
          exact Or.inl ⟨rfl, rfl⟩

lemma filterStep_processed_mono {th : ℚ} {st : FilterState} {d : MarketPairData}
    {st' : FilterState} (h : filterStep th st d = .ok st') :
    ∀ x ∈ st.processed, x ∈ st'.processed := by
  rcases filterStep_cases h with ⟨_, hp⟩ | ⟨_, _, _, hp⟩ <;> intro x hx <;> rw [hp]
  · exact hx
  · exact mem_setInsert_of_mem hx

lemma filterLoop_processed_mono {th : ℚ} {l : List MarketPairData} {st st' : FilterState}
    (h : filterLoop th l st = .ok st') : ∀ x ∈ st.processed, x ∈ st'.processed := by
  induction l generalizing st with
  | nil =>
    cases h
    exact fun x hx => hx
  | cons d rest ih =>
    unfold filterLoop at h
    cases hs : filterStep th st d with
    | error e => rw [hs] at h; simp at h
    | ok st₁ =>
      rw [hs] at h
      exact fun x hx => ih h x (filterStep_processed_mono hs x hx)

/-- Processing a concatenation processes the two parts in sequence. -/
lemma filterLoop_append (th : ℚ) (l₁ l₂ : List MarketPairData) (st : FilterState) :
    filterLoop th (l₁ ++ l₂) st =
      match filterLoop th l₁ st with
      | .error e => .error e
      | .ok st' => filterLoop th l₂ st' := by
  induction l₁ generalizing st with
  | nil => simp [filterLoop]
  | cons d rest ih =>
    simp only [List.cons_append, filterLoop]
    cases filterStep th st d with
    | error e => rfl
    | ok st₁ => exact ih st₁

/-- Provenance of the emitted changes: every change a successful loop run
adds comes from a pair whose bare name was unprocessed at entry and is
processed at exit, and its display string is that bare name followed by the
parenthesised exchange name. -/
lemma filterLoop_provenance {th : ℚ} {l : List MarketPairData} {st st' : FilterState}
    {e : String} (hl : ∀ d ∈ l, d.exchange_name = e)
    (h : filterLoop th l st = .ok st') :
    ∃ extra, st'.significant_changes = st.significant_changes ++ extra ∧
      ∀ sc ∈ extra, ∃ n, sc.market_pair = n ++ " (" ++ e ++ ")" ∧
        n ∉ st.processed ∧ n ∈ st'.processed := by
  induction l generalizing st with
  | nil =>
    cases h
    exact ⟨[], by simp, by simp⟩
  | cons d rest ih =>
    unfold filterLoop at h
    cases hs : filterStep th st d with
    | error e => rw [hs] at h; simp at h
    | ok st₁ =>
      rw [hs] at h
      obtain ⟨extra, hsig, hsc⟩ := ih (fun d hd => hl d (List.mem_cons_of_mem _ hd)) h
      rcases filterStep_cases hs with ⟨hsig₁, hp₁⟩ | ⟨hnm, ch, hsig₁, hp₁⟩
      · refine ⟨extra, by rw [hsig, hsig₁], fun sc hmem => ?_⟩
        obtain ⟨n, hn, hnotin, hin⟩ := hsc sc hmem
        exact ⟨n, hn, by rw [← hp₁]; exact hnotin, hin⟩
      · refine ⟨mkSignificantChange d ch :: extra, ?_, ?_⟩
        · rw [hsig, hsig₁]; simp
        · intro sc hsc'
          rcases List.mem_cons.mp hsc' with rfl | hmem
          · refine ⟨d.market_pair, ?_, hnm, ?_⟩
            · simp [mkSignificantChange, hl d (List.mem_cons_self d rest)]
            · exact filterLoop_processed_mono h _ (by rw [hp₁]; exact mem_setInsert_self)
          · obtain ⟨n, hn, hnotin, hin⟩ := hsc sc hmem
            refine ⟨n, hn, fun hc => hnotin ?_, hin⟩
            rw [hp₁]
            exact mem_setInsert_of_mem hc

/-- Specification of one change-detector call used by the aggregator:
on success the processed set only grows, and each reported change carries a
bare pair name that was new at entry and processed at exit. -/
lemma filter_significant_changes_spec {md : List MarketPairData} {th : ℚ}
    {ps ps' : List String} {cs : List SignificantChange} {e : String}
    (hmd : ∀ d ∈ md, d.exchange_name = e)
    (h : filter_significant_changes md th ps = .ok (cs, ps')) :
    (∀ x ∈ ps, x ∈ ps') ∧
      ∀ sc ∈ cs, ∃ n, sc.market_pair = n ++ " (" ++ e ++ ")" ∧ n ∉ ps ∧ n ∈ ps' := by
  unfold filter_significant_changes at h
  cases hfl : filterLoop th md ⟨[], [], ps⟩ with
  | error e => rw [hfl] at h; simp at h
  | ok st =>
    rw [hfl] at h
    obtain ⟨hcs, hps'⟩ : cs = sortByChange st.significant_changes ∧ ps' = st.processed := by
      cases h; exact ⟨rfl, rfl⟩
    subst hcs hps'
    refine ⟨filterLoop_processed_mono hfl, fun sc hmem => ?_⟩
    obtain ⟨extra, hsig, hsc⟩ := filterLoop_provenance hmd hfl
    have : sc ∈ st.significant_changes := mem_sortByChange.mp hmem
    rw [hsig] at this
    simp only [List.nil_append] at this
    exact hsc sc this

/-! ### The de-duplication invariant across windows and exchanges -/

/-- One emitted block of the report: the exchange it belongs to, the window
name, and the changes reported for that window. -/
abbrev Block := String × String × List SignificantChange

/-- Flattens a `generate_reports` result into its blocks, in the order they
were produced: per exchange, per window. -/
def reportBlocks (reports : List (String × List (String × List SignificantChange))) :
    List Block :=
  reports.flatMap (fun er => er.2.map (fun wb => (er.1, wb.1, wb.2)))

/-- Two blocks share no market pair: no bare pair name is displayed in both
(the display string of a change is the bare name followed by the
parenthesised exchange of its block). -/
def NoSharedPair (b₁ b₂ : Block) : Prop :=
  ∀ P sc₁ sc₂, sc₁ ∈ b₁.2.2 → sc₂ ∈ b₂.2.2 →
    sc₁.market_pair = P ++ " (" ++ b₁.1 ++ ")" →
    sc₂.market_pair ≠ P ++ " (" ++ b₂.1 ++ ")"

/-- `BlockChain ps blocks ps'` records that `blocks` were produced by a run
of the aggregator that started with processed set `ps` and ended with `ps'`:
each block's changes name pairs unprocessed before the block and processed
right after it, and the processed set only grows along the chain. -/
inductive BlockChain : List String → List Block → List String → Prop
  | nil : ∀ {ps ps'}, (∀ x ∈ ps, x ∈ ps') → BlockChain ps [] ps'
  | cons : ∀ {ps psm ps' : List String} {e w : String} {cs : List SignificantChange}
      {rest : List Block},
      (∀ x ∈ ps, x ∈ psm) →
      (∀ sc ∈ cs, ∃ n, sc.market_pair = n ++ " (" ++ e ++ ")" ∧ n ∉ ps ∧ n ∈ psm) →
      BlockChain psm rest ps' →
      BlockChain ps ((e, w, cs) :: rest) ps'

lemma BlockChain.mono {ps ps' : List String} {bs : List Block}
    (h : BlockChain ps bs ps') : ∀ x ∈ ps, x ∈ ps' := by
  induction h with
  | nil hsub => exact hsub
  | cons hsub _ _ ih => exact fun x hx => ih x (hsub x hx)

lemma BlockChain.weaken_left {ps ps₁ ps' : List String} {bs : List Block}
    (hsub : ∀ x ∈ ps, x ∈ ps₁) (h : BlockChain ps₁ bs ps') : BlockChain ps bs ps' := by
  cases h with
  | nil hsub' => exact .nil (fun x hx => hsub' x (hsub x hx))
  | cons hsub' hcs hrest =>
    exact .cons (fun x hx => hsub' x (hsub x hx))
      (fun sc hsc => by
        obtain ⟨n, hn, hnotin, hin⟩ := hcs sc hsc
        exact ⟨n, hn, fun hc => hnotin (hsub n hc), hin⟩)
      hrest

lemma BlockChain.append {ps psm ps' : List String} {bs₁ bs₂ : List Block}
    (h₁ : BlockChain ps bs₁ psm) (h₂ : BlockChain psm bs₂ ps') :
    BlockChain ps (bs₁ ++ bs₂) ps' := by
  induction h₁ with
  | nil hsub => exact h₂.weaken_left hsub
  | cons hsub hcs _ ih => exact .cons hsub hcs (ih h₂)

/-- Along a chain, every block's changes name pairs that were unprocessed
when the whole chain started. -/
lemma BlockChain.notin_pre {ps ps' : List String} {bs : List Block}
    (h : BlockChain ps bs ps') :
    ∀ b ∈ bs, ∀ sc ∈ b.2.2, ∃ n, sc.market_pair = n ++ " (" ++ b.1 ++ ")" ∧ n ∉ ps := by
  induction h with
  | nil _ => simp
  | cons hsub hcs _ ih =>
    intro b hb sc hsc
    rcases List.mem_cons.mp hb with rfl | hb
    · obtain ⟨n, hn, hnotin, _⟩ := hcs sc hsc
      exact ⟨n, hn, hnotin⟩
    · obtain ⟨n, hn, hnotin⟩ := ih b hb sc hsc
      exact ⟨n, hn, fun hc => hnotin (hsub n hc)⟩

/-- The blocks of a chain are pairwise disjoint on bare pair names: a pair
surfaced by an earlier block cannot be surfaced again by any later block. -/
lemma BlockChain.pairwise {ps ps' : List String} {bs : List Block}
    (h : BlockChain ps bs ps') : List.Pairwise NoSharedPair bs := by
  induction h with
  | nil _ => exact .nil
  | cons hsub hcs hrest ih =>
    refine .cons (fun b hb => ?_) ih
    intro P sc₁ sc₂ hsc₁ hsc₂ heq₁ heq₂
    obtain ⟨n₁, hn₁, _, hin₁⟩ := hcs sc₁ hsc₁
    have hP₁ : n₁ = P := pair_display_inj (hn₁ ▸ heq₁)
    obtain ⟨n₂, hn₂, hnotin₂⟩ := hrest.notin_pre b hb sc₂ hsc₂
    have hP₂ : n₂ = P := pair_display_inj (hn₂ ▸ heq₂)
    exact hnotin₂ (hP₂ ▸ hP₁ ▸ hin₁)

/-! ### Chain structure of the aggregator loops -/

lemma processInterval_cases {th : ℚ} {fetch : FetchFun} {t : ℤ} {e : String}
    {ps : List String} {acc : List (String × List SignificantChange)}
    {iv : String × ℤ} {ps₁ : List String}
    {acc₁ : List (String × List SignificantChange)}
    (h : processInterval th fetch t e (ps, acc) iv = .ok (ps₁, acc₁)) :
    (acc₁ = acc ∧ ∀ x ∈ ps, x ∈ ps₁) ∨
    (∃ report, acc₁ = acc ++ [(iv.1, report)] ∧ (∀ x ∈ ps, x ∈ ps₁) ∧
      ∀ sc ∈ report, ∃ n, sc.market_pair = n ++ " (" ++ e ++ ")" ∧ n ∉ ps ∧ n ∈ ps₁) := by
  unfold processInterval at h
  cases hf : fetch iv.2 t with
  | error e => rw [hf] at h; simp at h
  | ok market_data =>
    rw [hf] at h
    simp only at h
    cases hfc : filter_significant_changes
        (market_data.filter (fun d => d.exchange_name == e)) th ps with
    | error e => rw [hfc] at h; simp at h
    | ok rp =>
      obtain ⟨report, processed'⟩ := rp
      rw [hfc] at h
      have hmd : ∀ d ∈ market_data.filter (fun d => d.exchange_name == e),
          d.exchange_name = e := by
        intro d hd
        have := (List.mem_filter.mp hd).2
        exact beq_iff_eq.mp this
      obtain ⟨hmono, hprov⟩ := filter_significant_changes_spec hmd hfc
      simp only at h
      split at h
      · cases h
        exact Or.inl ⟨rfl, hmono⟩
      · cases h
        exact Or.inr ⟨report, rfl, hmono, hprov⟩

lemma intervalLoop_chain {th : ℚ} {fetch : FetchFun} {t : ℤ} {e : String}
    {ivs : List (String × ℤ)} {ps ps' : List String}
    {acc acc' : List (String × List SignificantChange)}
    (h : intervalLoop th fetch t e ivs (ps, acc) = .ok (ps', acc')) :
    ∃ nbs, acc' = acc ++ nbs ∧
      BlockChain ps (nbs.map (fun wb => (e, wb.1, wb.2))) ps' := by
  induction ivs generalizing ps acc with
  | nil =>
    cases h
    exact ⟨[], by simp, .nil (fun x hx => hx)⟩
  | cons iv rest ih =>
    unfold intervalLoop at h
    cases hpi : processInterval th fetch t e (ps, acc) iv with
    | error e => rw [hpi] at h; simp at h
    | ok acc₁ =>
      obtain ⟨ps₁, acc₁⟩ := acc₁
      rw [hpi] at h
      obtain ⟨nbs, hacc', hchain⟩ := ih h
      rcases processInterval_cases hpi with ⟨rfl, hmono⟩ | ⟨report, rfl, hmono, hprov⟩
      · exact ⟨nbs, hacc', hchain.weaken_left hmono⟩
      · refine ⟨(iv.1, report) :: nbs, by simpa using hacc', ?_⟩
        exact .cons hmono hprov hchain

lemma reportBlocks_cons (ex : String) (ebs : List (String × List SignificantChange))
    (rest : List (String × List (String × List SignificantChange))) :
    reportBlocks ((ex, ebs) :: rest) =
      ebs.map (fun wb => (ex, wb.1, wb.2)) ++ reportBlocks rest := by
  simp [reportBlocks]

lemma exchangeLoop_chain {th : ℚ} {fetch : FetchFun} {t : ℤ} {exs : List String}
    {ps ps' : List String}
    {acc reports' : List (String × List (String × List SignificantChange))}
    (h : exchangeLoop th fetch t exs (ps, acc) = .ok (ps', reports')) :
    ∃ nrs, reports' = acc ++ nrs ∧ BlockChain ps (reportBlocks nrs) ps' := by
  induction exs generalizing ps acc with
  | nil =>
    cases h
    exact ⟨[], by simp, .nil (fun x hx => hx)⟩
  | cons ex rest ih =>
    unfold exchangeLoop at h
    cases hil : intervalLoop th fetch t ex (sortedIntervals t) (ps, []) with
    | error e => rw [hil] at h; simp at h
    | ok pr =>
      obtain ⟨processed', exchange_reports⟩ := pr
      rw [hil] at h
      obtain ⟨nbs, hebs, hchain⟩ := intervalLoop_chain hil
      simp only [List.nil_append] at hebs
      subst hebs
      simp only at h
      split at h
      · rename_i hempty
        obtain ⟨nrs, hrep, hchain'⟩ := ih h
        have hnbs : exchange_reports = [] := by simpa [List.isEmpty_iff] using hempty
        subst hnbs
        exact ⟨nrs, hrep, hchain'.weaken_left hchain.mono⟩
      · obtain ⟨nrs, hrep, hchain'⟩ := ih h
        refine ⟨(ex, exchange_reports) :: nrs, by simpa using hrep, ?_⟩
        rw [reportBlocks_cons]
        exact hchain.append hchain'

/-! ### Pointwise behaviour of the change-detector loop -/

lemma filterStep_skip {th : ℚ} {st : FilterState} {d : MarketPairData}
    (hmem : d.market_pair ∈ st.processed) : filterStep th st d = .ok st := by
  simp [filterStep, hmem]

lemma filterStep_baseline {th : ℚ} {st : FilterState} {d : MarketPairData}
    (hmem : d.market_pair ∉ st.processed)
    (hfind : assocFind d.market_pair st.market_pairs = none) :
    filterStep th st d
      = .ok { st with market_pairs := (d.market_pair, d) :: st.market_pairs } := by
  simp [filterStep, hmem, hfind]

lemma filterStep_zero {th : ℚ} {st : FilterState} {d first : MarketPairData}
    (hmem : d.market_pair ∉ st.processed)
    (hfind : assocFind d.market_pair st.market_pairs = some first)
    (hzero : first.price = 0) : filterStep th st d = .error () := by
  simp [filterStep, hmem, hfind, hzero]

lemma filterStep_below {th : ℚ} {st : FilterState} {d first : MarketPairData}
    (hmem : d.market_pair ∉ st.processed)
    (hfind : assocFind d.market_pair st.market_pairs = some first)
    (hprice : first.price ≠ 0)
    (hch : |(d.price - first.price) / first.price * 100| < th) :
    filterStep th st d = .ok st := by
  simp [filterStep, hmem, hfind, hprice, not_le.mpr hch]

lemma filterStep_emit {th : ℚ} {st : FilterState} {d first : MarketPairData}
    (hmem : d.market_pair ∉ st.processed)
    (hfind : assocFind d.market_pair st.market_pairs = some first)
    (hprice : first.price ≠ 0)
    (hch : |(d.price - first.price) / first.price * 100| ≥ th) :
    filterStep th st d
      = .ok { significant_changes := st.significant_changes ++
                [mkSignificantChange d ((d.price - first.price) / first.price * 100)]
              market_pairs := assocErase d.market_pair st.market_pairs
              processed := setInsert st.processed d.market_pair } := by
  simp [filterStep, hmem, hfind, hprice, hch]

/-- Observations whose pairs are all already processed leave the loop state
unchanged. -/
lemma filterLoop_skip_all {th : ℚ} {l : List MarketPairData} {st : FilterState}
    (h : ∀ d ∈ l, d.market_pair ∈ st.processed) : filterLoop th l st = .ok st := by
  induction l with
  | nil => rfl
  | cons d rest ih =>
    show filterLoop th (d :: rest) st = .ok st
    unfold filterLoop
    rw [filterStep_skip (h d (List.mem_cons_self d rest))]
    exact ih fun d hd => h d (List.mem_cons_of_mem _ hd)

/-- Observations of an unprocessed pair whose changes against the stored
baseline all stay strictly below the threshold leave the loop state
unchanged. -/
lemma filterLoop_below_all {th : ℚ} {l : List MarketPairData} {st : FilterState}
    {p : String} {d0 : MarketPairData}
    (hfind : assocFind p st.market_pairs = some d0)
    (hmem : p ∉ st.processed) (hprice : d0.price ≠ 0)
    (h : ∀ d ∈ l, d.market_pair = p ∧ |(d.price - d0.price) / d0.price * 100| < th) :
    filterLoop th l st = .ok st := by
  induction l with
  | nil => rfl
  | cons d rest ih =>
    obtain ⟨hp, hch⟩ := h d (List.mem_cons_self d rest)
    show filterLoop th (d :: rest) st = .ok st
    unfold filterLoop
    have hmem' : d.market_pair ∉ st.processed := by rw [hp]; exact hmem
    have hfind' : assocFind d.market_pair st.market_pairs = some d0 := by
      rw [hp]; exact hfind
    rw [filterStep_below hmem' hfind' hprice hch]
    exact ih fun d hd => h d (List.mem_cons_of_mem _ hd)

lemma sortByChange_singleton (sc : SignificantChange) : sortByChange [sc] = [sc] := by
  simp [sortByChange, List.insertionSort]

/-- The four windows are already listed tightest-first, so the sort by start
descending leaves the configuration order unchanged. -/
lemma sortedIntervals_eq (t : ℤ) :
    sortedIntervals t
      = [("10 min", t - 10), ("30 min", t - 30), ("60 min", t - 60), ("3 hours", t - 180)] := by
  simp only [sortedIntervals, intervals, List.insertionSort]
  simp only [List.orderedInsert]
  rw [if_pos (by omega)]
  simp only [List.orderedInsert]
  rw [if_pos (by omega)]
  simp only [List.orderedInsert]
  rw [if_pos (by omega)]

/-! ### Concrete runs used as witnesses and counterexamples -/

/-- Four observations of the same market-pair name `AAA` on two different
exchanges, all inside the 10-minute window of `current_time = 200`; the
price moves 20 % on `E1` and 30 % on `E2`. -/
def aaaE1a : MarketPairData := ⟨"AAA", "E1", "spot", "u1", 100, 191⟩

def aaaE1b : MarketPairData := ⟨"AAA", "E1", "spot", "u1", 120, 195⟩

def aaaE2a : MarketPairData := ⟨"AAA", "E2", "spot", "u2", 100, 192⟩

def aaaE2b : MarketPairData := ⟨"AAA", "E2", "spot", "u2", 130, 196⟩

def storeC : List MarketPairData := [aaaE1a, aaaE1b, aaaE2a, aaaE2b]

/-- A store fetch that never fails and returns the rows of `storeC` in the
queried range. -/
def fetchC : FetchFun := fun s e =>
  .ok (storeC.filter (fun d => s ≤ d.timestamp ∧ d.timestamp ≤ e))

/-- A 20 % move of `AAA` on `E1` that lies in the 30-minute window of
`current_time = 200` but outside the 10-minute window. -/
def rowsLate : List MarketPairData :=
  [⟨"AAA", "E1", "spot", "u1", 100, 175⟩, ⟨"AAA", "E1", "spot", "u1", 120, 185⟩]

/-- A store whose fetch fails exactly for the 10-minute slice of
`current_time = 200` (query start `190`) and succeeds for all other slices. -/
def fetchFail : FetchFun := fun s _ => if s = 190 then .error () else .ok rowsLate

/-- The same store with the failing slice replaced by an empty result — the
behaviour the specification prescribes for a failed slice. -/
def fetchEmptyTight : FetchFun := fun s _ => if s = 190 then .ok [] else .ok rowsLate

/-! ### Claim theorems -/

/-- C6: in every aggregation cycle the configured lookback windows are
evaluated from smallest lookback to largest — the window loop of
`generate_reports` runs over `sortedIntervals`, which is the interval table
ordered by window start strictly descending (tightest/most recent first). -/
theorem window_order_tightest_first (t : ℤ) :
    sortedIntervals t
      = [("10 min", t - 10), ("30 min", t - 30), ("60 min", t - 60), ("3 hours", t - 180)] ∧
    List.Chain' (fun a b => b.2 < a.2) (sortedIntervals t) := by
  refine ⟨sortedIntervals_eq t, ?_⟩
  rw [sortedIntervals_eq]
  simp [List.chain'_cons]

/-- C3 (counterexample): a store fetch failure for a single slice is *not*
caught by `generate_reports` — with data in the 30-minute window and a fetch
that fails only for the 10-minute slice, the whole cycle aborts with the
store error, whereas treating the failed slice as empty (as the claim says)
would have produced a 30-minute report. -/
theorem fetch_failure_not_caught :
    generate_reports ["E1"] 10 fetchFail 200 = .error () ∧
    generate_reports ["E1"] 10 fetchEmptyTight 200
      = .ok [("E1", [("30 min",
          [mkSignificantChange ⟨"AAA", "E1", "spot", "u1", 120, 185⟩ 20])])] := by
  constructor
  · norm_num [generate_reports, exchangeLoop, intervalLoop, processInterval,
      fetchFail, rowsLate, sortedIntervals, intervals, List.insertionSort,
      List.orderedInsert]
  · norm_num [generate_reports, exchangeLoop, intervalLoop, processInterval,
      fetchEmptyTight, rowsLate, sortedIntervals, intervals, List.insertionSort,
      List.orderedInsert, filter_significant_changes, filterLoop, filterStep,
      assocFind, assocErase, setInsert, sortByChange, mkSignificantChange]

/-- C3 (amended): a store fetch failure for one exchange/window slice is not
caught — the error propagates out of `generate_reports`, aborting the whole
aggregation cycle, and no remaining exchange or window is processed. -/
theorem fetch_failure_aborts_cycle (exchanges : List String) (th : ℚ)
    (fetch : FetchFun) (t : ℤ) (e : String) (rest : List String)
    (hex : exchanges = e :: rest)
    (hfail : fetch (t - 10) t = .error ()) :
    generate_reports exchanges th fetch t = .error () := by
  subst hex
  unfold generate_reports exchangeLoop
  rw [sortedIntervals_eq]
  unfold intervalLoop processInterval
  rw [hfail]

/-- Witness for `fetch_failure_aborts_cycle` at a concrete input. -/
theorem fetch_failure_aborts_cycle_witness :
    generate_reports ["E1"] 10 fetchFail 200 = .error () :=
  fetch_failure_aborts_cycle ["E1"] 10 fetchFail 200 "E1" [] rfl (by norm_num [fetchFail])

/-- One successful step turns a cons into the loop on the tail. -/
lemma filterLoop_cons {th : ℚ} {d : MarketPairData} {rest : List MarketPairData}
    {st st₁ : FilterState} (h : filterStep th st d = .ok st₁) :
    filterLoop th (d :: rest) st = filterLoop th rest st₁ := by
  simp only [filterLoop]
  rw [h]

/-- A failing step fails the whole loop. -/
lemma filterLoop_cons_error {th : ℚ} {d : MarketPairData} {rest : List MarketPairData}
    {st : FilterState} (h : filterStep th st d = .error ()) :
    filterLoop th (d :: rest) st = .error () := by
  simp only [filterLoop]
  rw [h]

/-- Unfolds the detector into its loop on a successful run. -/
lemma filter_significant_changes_eq {md : List MarketPairData} {th : ℚ}
    {ps ps' : List String} {cs : List SignificantChange}
    {mpd : List (String × MarketPairData)}
    (h : filterLoop th md ⟨[], [], ps⟩ = .ok ⟨cs, mpd, ps'⟩) :
    filter_significant_changes md th ps = .ok (sortByChange cs, ps') := by
  unfold filter_significant_changes
  rw [h]

/-- Unfolds the detector into its loop on a failing run. -/
lemma filter_significant_changes_error {md : List MarketPairData} {th : ℚ}
    {ps : List String} (h : filterLoop th md ⟨[], [], ps⟩ = .error ()) :
    filter_significant_changes md th ps = .error () := by
  unfold filter_significant_changes
  rw [h]

lemma filterLoop_nil {th : ℚ} {st : FilterState} : filterLoop th [] st = .ok st := rfl

/-- First observation of an unprocessed pair on the empty initial state:
it becomes the stored baseline. -/
lemma filterStep_baseline0 {th : ℚ} {d : MarketPairData} {ps : List String}
    (hps : d.market_pair ∉ ps) :
    filterStep th ⟨[], [], ps⟩ d = .ok ⟨[], [(d.market_pair, d)], ps⟩ := by
  simp [filterStep, hps, assocFind]

/-- Later observation of the pair whose baseline is stored, zero baseline:
the division raises. -/
lemma filterStep_zero1 {th : ℚ} {d first : MarketPairData} {p : String}
    {ps : List String} (hp : d.market_pair = p) (hmem : d.market_pair ∉ ps)
    (hzero : first.price = 0) :
    filterStep th ⟨[], [(p, first)], ps⟩ d = .error () := by
  subst hp
  simp [filterStep, hmem, assocFind, hzero]

/-- Later observation of the stored pair, below the threshold: no output,
state unchanged. -/
lemma filterStep_below1 {th : ℚ} {d first : MarketPairData} {p : String}
    {ps : List String} (hp : d.market_pair = p) (hmem : d.market_pair ∉ ps)
    (hprice : first.price ≠ 0)
    (hch : |(d.price - first.price) / first.price * 100| < th) :
    filterStep th ⟨[], [(p, first)], ps⟩ d = .ok ⟨[], [(p, first)], ps⟩ := by
  subst hp
  simp [filterStep, hmem, assocFind, hprice, not_le.mpr hch]

/-- Later observation of the stored pair, at or above the threshold: the
change is emitted, the baseline entry is deleted and the pair becomes
processed. -/
lemma filterStep_emit1 {th : ℚ} {d first : MarketPairData} {p : String}
    {ps : List String} (hp : d.market_pair = p) (hmem : d.market_pair ∉ ps)
    (hprice : first.price ≠ 0)
    (hch : |(d.price - first.price) / first.price * 100| ≥ th) :
    filterStep th ⟨[], [(p, first)], ps⟩ d
      = .ok ⟨[mkSignificantChange d ((d.price - first.price) / first.price * 100)],
             [], setInsert ps p⟩ := by
  subst hp
  simp [filterStep, hmem, assocFind, assocErase, hprice, hch]

/-- C2 (counterexample): a pair whose baseline observation has price 0 is
*not* skipped silently — as soon as a second observation of the pair
arrives, the percentage computation divides by zero and the call raises
instead of returning a result without that pair. -/
theorem zero_baseline_not_skipped :
    filter_significant_changes
      [⟨"AAA", "X", "spot", "u", 0, 0⟩, ⟨"AAA", "X", "spot", "u", 5, 1⟩] 5 []
      = .error () := by
  norm_num [filter_significant_changes, filterLoop, filterStep, assocFind]

/-- C2 (amended): a pair whose first (baseline) observation has price 0 and
which has at least one later observation in the window makes the Change
Detector raise a division-by-zero error (aborting the whole call) — the
pair is only left out quietly when no later observation of it appears. -/
theorem zero_baseline_raises (d1 d2 : MarketPairData) (rest : List MarketPairData)
    (th : ℚ) (ps : List String) (hpair : d2.market_pair = d1.market_pair)
    (hps : d1.market_pair ∉ ps) (hzero : d1.price = 0) :
    filter_significant_changes (d1 :: d2 :: rest) th ps = .error () := by
  refine filter_significant_changes_error ?_
  rw [filterLoop_cons (filterStep_baseline0 hps)]
  exact filterLoop_cons_error
    (filterStep_zero1 hpair (by rw [hpair]; exact hps) hzero)

/-- Witness for `zero_baseline_raises` at a concrete input. -/
theorem zero_baseline_raises_witness :
    filter_significant_changes
      [⟨"BBB", "X", "spot", "u", 0, 0⟩, ⟨"BBB", "X", "spot", "u", 7, 1⟩] 5 []
      = .error () :=
  zero_baseline_raises ⟨"BBB", "X", "spot", "u", 0, 0⟩ ⟨"BBB", "X", "spot", "u", 7, 1⟩
    [] 5 [] rfl (by simp) rfl

/-- C4: for an unprocessed pair with nonzero baseline, the first later
observation whose absolute percentage change meets the threshold is the one
reported, and every observation of the pair after that crossing is ignored:
the call returns exactly that one change and marks the pair processed. -/
theorem first_crossing_reported (d0 hit : MarketPairData)
    (pre post : List MarketPairData) (th : ℚ) (ps : List String)
    (hps : d0.market_pair ∉ ps) (hbase : d0.price ≠ 0)
    (hpre : ∀ d ∈ pre, d.market_pair = d0.market_pair ∧
      |(d.price - d0.price) / d0.price * 100| < th)
    (hhitp : hit.market_pair = d0.market_pair)
    (hhit : |(hit.price - d0.price) / d0.price * 100| ≥ th)
    (hpost : ∀ d ∈ post, d.market_pair = d0.market_pair) :
    filter_significant_changes (d0 :: (pre ++ hit :: post)) th ps
      = .ok ([mkSignificantChange hit ((hit.price - d0.price) / d0.price * 100)],
             setInsert ps d0.market_pair) := by
  have hpre' : filterLoop th pre ⟨[], [(d0.market_pair, d0)], ps⟩
      = .ok ⟨[], [(d0.market_pair, d0)], ps⟩ :=
    filterLoop_below_all (by simp [assocFind]) hps hbase hpre
  have hB : filterLoop th (pre ++ hit :: post) ⟨[], [(d0.market_pair, d0)], ps⟩
      = filterLoop th (hit :: post) ⟨[], [(d0.market_pair, d0)], ps⟩ := by
    rw [filterLoop_append, hpre']
  have hC : filterLoop th (hit :: post) ⟨[], [(d0.market_pair, d0)], ps⟩
      = filterLoop th post
          ⟨[mkSignificantChange hit ((hit.price - d0.price) / d0.price * 100)],
           [], setInsert ps d0.market_pair⟩ :=
    filterLoop_cons (filterStep_emit1 hhitp (by rw [hhitp]; exact hps) hbase hhit)
  have hD : filterLoop th post
      ⟨[mkSignificantChange hit ((hit.price - d0.price) / d0.price * 100)],
       [], setInsert ps d0.market_pair⟩
      = .ok ⟨[mkSignificantChange hit ((hit.price - d0.price) / d0.price * 100)],
             [], setInsert ps d0.market_pair⟩ :=
    filterLoop_skip_all fun d hd => by
      show d.market_pair ∈ setInsert ps d0.market_pair
      rw [hpost d hd]
      exact mem_setInsert_self
  have h := filter_significant_changes_eq
    ((filterLoop_cons (filterStep_baseline0 hps)).trans (hB.trans (hC.trans hD)))
  rw [sortByChange_singleton] at h
  exact h

/-- Witness for `first_crossing_reported`: prices 100, 108, 95 with
threshold 5 % report exactly the 108 observation (+8 %), even though the
later 95 observation also moves by at least 5 %. -/
theorem first_crossing_reported_witness :
    filter_significant_changes
      [⟨"BTC_USDT", "X", "spot", "u", 100, 0⟩, ⟨"BTC_USDT", "X", "spot", "u", 108, 1⟩,
       ⟨"BTC_USDT", "X", "spot", "u", 95, 2⟩] 5 []
      = .ok ([mkSignificantChange ⟨"BTC_USDT", "X", "spot", "u", 108, 1⟩ 8],
             ["BTC_USDT"]) := by
  have h := first_crossing_reported ⟨"BTC_USDT", "X", "spot", "u", 100, 0⟩
    ⟨"BTC_USDT", "X", "spot", "u", 108, 1⟩ []
    [⟨"BTC_USDT", "X", "spot", "u", 95, 2⟩] 5 []
    (by simp) (by norm_num) (by simp) rfl (by norm_num)
    (by intro d hd; simp at hd; subst hd; rfl)
  norm_num [setInsert] at h
  exact h

/-- C5: with a nonzero baseline, an absolute percentage change exactly equal
to the threshold qualifies (the comparison is `≥`), while a change strictly
below the threshold is not reported. -/
theorem threshold_boundary (d1 d2 : MarketPairData) (th : ℚ) (ps : List String)
    (hpair : d2.market_pair = d1.market_pair) (hps : d1.market_pair ∉ ps)
    (hbase : d1.price ≠ 0) :
    (|(d2.price - d1.price) / d1.price * 100| = th →
      filter_significant_changes [d1, d2] th ps
        = .ok ([mkSignificantChange d2 ((d2.price - d1.price) / d1.price * 100)],
               setInsert ps d1.market_pair)) ∧
    (|(d2.price - d1.price) / d1.price * 100| < th →
      filter_significant_changes [d1, d2] th ps = .ok ([], ps)) := by
  constructor
  · intro heq
    have h := filter_significant_changes_eq
      ((filterLoop_cons (filterStep_baseline0 hps)).trans
        ((filterLoop_cons (filterStep_emit1 hpair (by rw [hpair]; exact hps) hbase
          (le_of_eq heq.symm))).trans filterLoop_nil))
    rw [sortByChange_singleton] at h
    exact h
  · intro hlt
    exact filter_significant_changes_eq
      ((filterLoop_cons (filterStep_baseline0 hps)).trans
        ((filterLoop_cons (filterStep_below1 hpair (by rw [hpair]; exact hps) hbase
          hlt)).trans filterLoop_nil))

/-- Witness for `threshold_boundary`: a move from 100 to 105 with threshold
5 % (exactly the threshold) is reported. -/
theorem threshold_boundary_witness :
    filter_significant_changes
      [⟨"ETH_USDT", "X", "spot", "u", 100, 0⟩, ⟨"ETH_USDT", "X", "spot", "u", 105, 1⟩]
      5 []
      = .ok ([mkSignificantChange ⟨"ETH_USDT", "X", "spot", "u", 105, 1⟩ 5],
             ["ETH_USDT"]) := by
  have h := (threshold_boundary ⟨"ETH_USDT", "X", "spot", "u", 100, 0⟩
    ⟨"ETH_USDT", "X", "spot", "u", 105, 1⟩ 5 [] rfl (by simp) (by norm_num)).1
    (by norm_num)
  norm_num [setInsert] at h
  exact h

/-- C10: with threshold 0, an unprocessed pair with nonzero baseline and a
second observation at the *same* price is still reported — the 0 % change
passes the `≥ 0` test — and all later observations of the pair are ignored. -/
theorem zero_threshold_reports_unchanged_price (d1 d2 : MarketPairData)
    (rest : List MarketPairData) (ps : List String)
    (hpair : d2.market_pair = d1.market_pair)
    (hrest : ∀ d ∈ rest, d.market_pair = d1.market_pair)
    (hps : d1.market_pair ∉ ps) (hbase : d1.price ≠ 0)
    (hprice : d2.price = d1.price) :
    filter_significant_changes (d1 :: d2 :: rest) 0 ps
      = .ok ([mkSignificantChange d2 0], setInsert ps d1.market_pair) := by
  have hch : (d2.price - d1.price) / d1.price * 100 = 0 := by
    rw [hprice, sub_self, zero_div, zero_mul]
  have hC : filterLoop 0 (d2 :: rest) ⟨[], [(d1.market_pair, d1)], ps⟩
      = filterLoop 0 rest ⟨[mkSignificantChange d2 0], [], setInsert ps d1.market_pair⟩ := by
    have h : filterLoop 0 (d2 :: rest) ⟨[], [(d1.market_pair, d1)], ps⟩
        = filterLoop 0 rest
            ⟨[mkSignificantChange d2 ((d2.price - d1.price) / d1.price * 100)],
             [], setInsert ps d1.market_pair⟩ :=
      filterLoop_cons (filterStep_emit1 hpair (by rw [hpair]; exact hps) hbase (by rw [hch]; exact abs_nonneg 0))
    rw [hch] at h
    exact h
  have hD : filterLoop 0 rest
      ⟨[mkSignificantChange d2 0], [], setInsert ps d1.market_pair⟩
      = .ok ⟨[mkSignificantChange d2 0], [], setInsert ps d1.market_pair⟩ :=
    filterLoop_skip_all fun d hd => by
      show d.market_pair ∈ setInsert ps d1.market_pair
      rw [hrest d hd]
      exact mem_setInsert_self
  have h := filter_significant_changes_eq
    ((filterLoop_cons (filterStep_baseline0 hps)).trans (hC.trans hD))
  rw [sortByChange_singleton] at h
  exact h

/-- Witness for `zero_threshold_reports_unchanged_price`: two observations
of the same pair at the identical price 100 with threshold 0 produce a
report with a 0 % change. -/
theorem zero_threshold_reports_unchanged_price_witness :
    filter_significant_changes
      [⟨"DOGE_USDT", "X", "spot", "u", 100, 0⟩, ⟨"DOGE_USDT", "X", "spot", "u", 100, 1⟩]
      0 []
      = .ok ([mkSignificantChange ⟨"DOGE_USDT", "X", "spot", "u", 100, 1⟩ 0],
             ["DOGE_USDT"]) := by
  have h := zero_threshold_reports_unchanged_price
    ⟨"DOGE_USDT", "X", "spot", "u", 100, 0⟩ ⟨"DOGE_USDT", "X", "spot", "u", 100, 1⟩
    [] [] rfl (by simp) (by simp) (by norm_num) rfl
  simpa [setInsert] using h

/-- C1: in one aggregation cycle no market pair appears in more than one
window's output — across all exchanges and all windows, any two distinct
blocks of the produced report never surface the same bare pair name (once a
pair yields a change in some window, every later window and every later
exchange omits it). -/
theorem dedup_across_windows_and_exchanges (exchanges : List String) (th : ℚ)
    (fetch : FetchFun) (t : ℤ)
    (reports : List (String × List (String × List SignificantChange)))
    (h : generate_reports exchanges th fetch t = .ok reports) :
    List.Pairwise NoSharedPair (reportBlocks reports) := by
  unfold generate_reports at h
  cases hel : exchangeLoop th fetch t exchanges ([], []) with
  | error e => rw [hel] at h; simp at h
  | ok pr =>
    obtain ⟨psf, reports₀⟩ := pr
    rw [hel] at h
    simp only [Except.ok.injEq] at h
    subst h
    obtain ⟨nrs, hnrs, hchain⟩ := exchangeLoop_chain hel
    simp only [List.nil_append] at hnrs
    subst hnrs
    exact hchain.pairwise

/-- Witness for `dedup_across_windows_and_exchanges`: the concrete
two-exchange cycle on `fetchC`. -/
theorem dedup_across_windows_and_exchanges_witness :
    List.Pairwise NoSharedPair (reportBlocks
      [("E1", [("10 min", [mkSignificantChange aaaE1b 20])])]) :=
  dedup_across_windows_and_exchanges ["E1", "E2"] 10 fetchC 200 _
    (by norm_num [generate_reports, exchangeLoop, intervalLoop, processInterval,
      fetchC, storeC, aaaE1a, aaaE1b, aaaE2a, aaaE2b, sortedIntervals, intervals,
      List.insertionSort, List.orderedInsert, filter_significant_changes,
      filterLoop, filterStep, assocFind, assocErase, setInsert, sortByChange,
      mkSignificantChange])

/-- C7: the processed set is created once per `generate_reports` call and
shared across all exchanges, keyed by the bare pair name: the pair name
`AAA` qualifies on exchange `E2` when `E2` is aggregated alone, but in a
cycle that processes `E1` first, `E1` claims the name and `E2`'s alert is
suppressed (no `E2` entry appears at all). -/
theorem shared_dedup_suppresses_second_exchange :
    generate_reports ["E2"] 10 fetchC 200
      = .ok [("E2", [("10 min", [mkSignificantChange aaaE2b 30])])] ∧
    generate_reports ["E1", "E2"] 10 fetchC 200
      = .ok [("E1", [("10 min", [mkSignificantChange aaaE1b 20])])] := by
  constructor <;>
    norm_num [generate_reports, exchangeLoop, intervalLoop, processInterval,
      fetchC, storeC, aaaE1a, aaaE1b, aaaE2a, aaaE2b, sortedIntervals, intervals,
      List.insertionSort, List.orderedInsert, filter_significant_changes,
      filterLoop, filterStep, assocFind, assocErase, setInsert, sortByChange,
      mkSignificantChange]

/-- C8: within one window's rendered block the entries appear in ascending
order of signed change percentage — the list the formatter renders is sorted
by `change_percentage` and is a permutation of the window's changes. -/
theorem formatted_block_sorted (changes : List SignificantChange) :
    List.Sorted (fun a b => a.change_percentage ≤ b.change_percentage)
      (sorted_changes changes) ∧
    (sorted_changes changes).Perm changes := by
  constructor
  · haveI : IsTotal SignificantChange
        (fun a b => a.change_percentage ≤ b.change_percentage) :=
      ⟨fun a b => le_total _ _⟩
    haveI : IsTrans SignificantChange
        (fun a b => a.change_percentage ≤ b.change_percentage) :=
      ⟨fun _ _ _ hab hbc => le_trans hab hbc⟩
    exact List.sorted_insertionSort _ _
  · exact List.perm_insertionSort _ _

/-- C9: pruning deletes exactly the rows with `timestamp` strictly below the
cutoff `now − hours` (a surviving row is a stored row at or after the
cutoff, and the reported count is the number of strictly-older rows);
running it again on the result deletes 0 and changes nothing; and on a
failure the transaction is rolled back — the rows are unchanged — and the
error is re-raised. -/
theorem prune_exact_and_rollback (store : List MarketPairData) (now hours : ℤ) :
    (∀ d, d ∈ (delete_old_records false store now hours).1 ↔
      d ∈ store ∧ now - hours * 60 ≤ d.timestamp) ∧
    ((delete_old_records false store now hours).2
      = .ok (store.filter (fun d => d.timestamp < now - hours * 60)).length) ∧
    (delete_old_records false (delete_old_records false store now hours).1 now hours
      = ((delete_old_records false store now hours).1, .ok 0)) ∧
    (delete_old_records true store now hours = (store, .error ())) := by
  refine ⟨?_, ?_, ?_, rfl⟩
  · intro d
    simp [delete_old_records, List.mem_filter, not_lt]
  · simp [delete_old_records]
  · have hself : (store.filter (fun d => !(d.timestamp < now - hours * 60))).filter
        (fun d => !(d.timestamp < now - hours * 60))
        = store.filter (fun d => !(d.timestamp < now - hours * 60)) :=
      List.filter_eq_self.mpr (fun a ha => (List.mem_filter.mp ha).2)
    have hnil : (store.filter (fun d => !(d.timestamp < now - hours * 60))).filter
        (fun d => d.timestamp < now - hours * 60) = [] := by
      refine List.filter_eq_nil_iff.mpr (fun a ha => ?_)
      have := (List.mem_filter.mp ha).2
      simpa using this
    simp [delete_old_records, hself, hnil]

end MarketPulse
